import Mathlib

/-!
Verification of the development-event tracker service (`src/main.rs`).

The development embeds, as executable Lean definitions, the parts of the
program the specification speaks about: the JSON value model with its
text serialization and parsing (the `serde_json` collaborator, modelled
from the spec since the library is not part of the repository), the event
table state with insert / reset / filtered-select operations, the request
router `route_request`, the error mapper `AppError.to_response`, and the
top-level `handle_request` boundary.  Machine integers that matter
(the `i32` event id field) are embedded as `Int` with explicit range
checks.  Theorems at the end settle the specification claims.
-/

/-- Structural JSON values, the model of `serde_json::Value`.  Numbers are
embedded as mathematical integers: the floating-point part of JSON numbers
is outside the shallow embedding and no claim depends on it. -/
inductive JsonValue where
  | null
  | bool (b : Bool)
  | num (n : Int)
  | str (s : String)
  | arr (xs : List JsonValue)
  | obj (fields : List (String × JsonValue))

mutual

/-- Node count of a JSON value, the fuel measure for the parser proofs. -/
def JsonValue.size : JsonValue → Nat
  | .arr xs => 1 + JsonValue.sizeL xs
  | .obj fs => 1 + JsonValue.sizeF fs
  | .null => 1
  | .bool _ => 1
  | .str _ => 1
  | .num _ => 1

/-- Total node count of a list of JSON values. -/
def JsonValue.sizeL : List JsonValue → Nat
  | [] => 0
  | x :: xs => JsonValue.size x + JsonValue.sizeL xs

/-- Total node count of a JSON object field list. -/
def JsonValue.sizeF : List (String × JsonValue) → Nat
  | [] => 0
  | (_, v) :: fs => 1 + JsonValue.size v + JsonValue.sizeF fs

end

/-- Fuel-indexed digit expansion of a natural number, most significant
digit first; the fuel strictly dominates the number. -/
def natCharsAux : Nat → Nat → List Char
  | 0, _ => []
  | fuel + 1, n =>
    if n < 10 then [Nat.digitChar n]
    else natCharsAux fuel (n / 10) ++ [Nat.digitChar (n % 10)]

/-- Decimal digits of a natural number, most significant first. -/
def natChars (n : Nat) : List Char :=
  natCharsAux (n + 1) n

theorem natCharsAux_mono : ∀ fuel n, n < fuel → ∀ fuel2, n < fuel2 →
    natCharsAux fuel n = natCharsAux fuel2 n := by
  intro fuel
  induction fuel with
  | zero => intro n hn; omega
  | succ f ih =>
    intro n hn fuel2 hn2
    cases fuel2 with
    | zero => omega
    | succ f2 =>
      rw [natCharsAux, natCharsAux]
      by_cases h10 : n < 10
      · rw [if_pos h10, if_pos h10]
      · rw [if_neg h10, if_neg h10]
        have hd : n / 10 < n := Nat.div_lt_self (by omega) (by omega)
        rw [ih (n / 10) (by omega) f2 (by omega)]

/-- Unfolding equation of `natChars` in its natural recursive form. -/
theorem natChars_eq (n : Nat) :
    natChars n = if n < 10 then [Nat.digitChar n]
      else natChars (n / 10) ++ [Nat.digitChar (n % 10)] := by
  rw [natChars, natCharsAux]
  by_cases h10 : n < 10
  · rw [if_pos h10, if_pos h10]
  · rw [if_neg h10, if_neg h10, natChars]
    have hd : n / 10 < n := Nat.div_lt_self (by omega) (by omega)
    rw [natCharsAux_mono n (n / 10) (by omega) (n / 10 + 1) (by omega)]

/-- Decimal rendering of an integer (the way `serde_json` prints an
integer number). -/
def intChars (n : Int) : List Char :=
  if n < 0 then '-' :: natChars n.natAbs else natChars n.natAbs

/-- Escape of one character inside a JSON string literal: quote and
backslash get a backslash escape, control characters get the
four-hex-digit unicode escape, everything else is emitted verbatim. -/
def escapeChar (c : Char) : List Char :=
  if c = '"' then ['\\', '"']
  else if c = '\\' then ['\\', '\\']
  else if c.toNat < 32 then
    ['\\', 'u', '0', '0', Nat.digitChar (c.toNat / 16), Nat.digitChar (c.toNat % 16)]
  else [c]

/-- Escape of a whole character sequence of a JSON string body. -/
def escChars : List Char → List Char
  | [] => []
  | c :: cs => escapeChar c ++ escChars cs

/-- Rendering of a JSON string literal, quotes included. -/
def renderStr (s : String) : List Char :=
  '"' :: (escChars s.data ++ ['"'])

mutual

/-- Compact text rendering of a JSON value, the model of
`serde_json::to_string`. -/
def render : JsonValue → List Char
  | .null => 'n' :: ['u', 'l', 'l']
  | .bool true => 't' :: ['r', 'u', 'e']
  | .bool false => 'f' :: ['a', 'l', 's', 'e']
  | .num n => intChars n
  | .str s => renderStr s
  | .arr xs => '[' :: (renderElems xs ++ [']'])
  | .obj fs => '\x7b' :: (renderFields fs ++ ['\x7d'])

/-- Rendering of the element list of a JSON array, commas between
elements. -/
def renderElems : List JsonValue → List Char
  | [] => []
  | x :: xs => render x ++ renderTail xs

/-- Rendering of the remaining elements of a JSON array, each preceded by
a comma. -/
def renderTail : List JsonValue → List Char
  | [] => []
  | x :: xs => ',' :: (render x ++ renderTail xs)

/-- Rendering of the field list of a JSON object. -/
def renderFields : List (String × JsonValue) → List Char
  | [] => []
  | (k, v) :: fs => renderStr k ++ (':' :: render v) ++ renderFTail fs

/-- Rendering of the remaining fields of a JSON object, each preceded by
a comma. -/
def renderFTail : List (String × JsonValue) → List Char
  | [] => []
  | (k, v) :: fs => ',' :: (renderStr k ++ (':' :: render v) ++ renderFTail fs)

end

/-- Whitespace characters the JSON grammar skips between tokens. -/
def isWsC (c : Char) : Bool :=
  c = ' ' || c = '\t' || c = '\n' || c = '\r'

/-- Consumption of leading JSON whitespace. -/
def skipWs : List Char → List Char
  | [] => []
  | c :: cs => if isWsC c then skipWs cs else c :: cs

/-- Match of a literal keyword tail: succeeds exactly when `pre` is a
prefix of the input, returning the remainder. -/
def stripPre : List Char → List Char → Option (List Char)
  | [], cs => some cs
  | _ :: _, [] => none
  | p :: ps, c :: cs => if c = p then stripPre ps cs else none

/-- Value of a hexadecimal digit character. -/
def hexVal (c : Char) : Option Nat :=
  if '0' ≤ c ∧ c ≤ '9' then some (c.toNat - 48)
  else if 'a' ≤ c ∧ c ≤ 'f' then some (c.toNat - 97 + 10)
  else if 'A' ≤ c ∧ c ≤ 'F' then some (c.toNat - 65 + 10)
  else none

/-- Single-character escapes accepted after a backslash in a JSON string. -/
def unescapeChar (e : Char) : Option Char :=
  if e = '"' then some '"'
  else if e = '\\' then some '\\'
  else if e = '/' then some '/'
  else if e = 'n' then some '\n'
  else if e = 't' then some '\t'
  else if e = 'r' then some '\r'
  else if e = 'b' then some (Char.ofNat 8)
  else if e = 'f' then some (Char.ofNat 12)
  else none

/-- Parse of a JSON string body after the opening quote: stops at the
closing quote, resolves escapes, rejects raw control characters. -/
def parseStrChars : List Char → Option (List Char × List Char)
  | [] => none
  | c :: rest =>
    if c = '"' then some ([], rest)
    else if c = '\\' then
      match rest with
      | [] => none
      | e :: r =>
        if e = 'u' then
          match r with
          | h1 :: h2 :: h3 :: h4 :: r2 =>
            match hexVal h1, hexVal h2, hexVal h3, hexVal h4 with
            | some a, some b, some c3, some d =>
              let n := ((a * 16 + b) * 16 + c3) * 16 + d
              if n < 55296 ∨ 57344 ≤ n then
                (parseStrChars r2).map (fun p => (Char.ofNat n :: p.1, p.2))
              else none
            | _, _, _, _ => none
          | _ => none
        else
          match unescapeChar e with
          | some u => (parseStrChars r).map (fun p => (u :: p.1, p.2))
          | none => none
    else if c.toNat < 32 then none
    else (parseStrChars rest).map (fun p => (c :: p.1, p.2))

/-- Greedy parse of a decimal digit run with accumulator. -/
def parseNatAcc : Nat → List Char → Nat × List Char
  | acc, [] => (acc, [])
  | acc, c :: cs =>
    if c.isDigit then parseNatAcc (acc * 10 + (c.toNat - 48)) cs
    else (acc, c :: cs)

mutual

/-- Fuel-indexed parse of one JSON value; leading whitespace allowed.
Returns the value and the unconsumed remainder. -/
def parseVal : Nat → List Char → Option (JsonValue × List Char)
  | 0, _ => none
  | fuel + 1, cs =>
    match skipWs cs with
    | [] => none
    | c :: r =>
      if c.isDigit then
        let p := parseNatAcc 0 (c :: r)
        some (JsonValue.num (p.1 : Int), p.2)
      else if c = '-' then
        match r with
        | c2 :: _ =>
          if c2.isDigit then
            let p := parseNatAcc 0 r
            some (JsonValue.num (-(p.1 : Int)), p.2)
          else none
        | [] => none
      else if c = 'n' then
        (stripPre ['u', 'l', 'l'] r).map (fun r2 => (JsonValue.null, r2))
      else if c = 't' then
        (stripPre ['r', 'u', 'e'] r).map (fun r2 => (JsonValue.bool true, r2))
      else if c = 'f' then
        (stripPre ['a', 'l', 's', 'e'] r).map (fun r2 => (JsonValue.bool false, r2))
      else if c = '"' then
        (parseStrChars r).map (fun p => (JsonValue.str (String.mk p.1), p.2))
      else if c = '[' then
        match skipWs r with
        | [] => none
        | c2 :: r2 =>
          if c2 = ']' then some (JsonValue.arr [], r2)
          else (parseElems fuel (c2 :: r2)).map (fun p => (JsonValue.arr p.1, p.2))
      else if c = '\x7b' then
        match skipWs r with
        | [] => none
        | c2 :: r2 =>
          if c2 = '\x7d' then some (JsonValue.obj [], r2)
          else (parseFields fuel (c2 :: r2)).map (fun p => (JsonValue.obj p.1, p.2))
      else none

/-- Fuel-indexed parse of the element list of a JSON array, after the
opening bracket, up to and including the closing bracket. -/
def parseElems : Nat → List Char → Option (List JsonValue × List Char)
  | 0, _ => none
  | fuel + 1, cs =>
    match parseVal fuel cs with
    | none => none
    | some (v, r) =>
      match skipWs r with
      | [] => none
      | c :: r2 =>
        if c = ',' then (parseElems fuel r2).map (fun p => (v :: p.1, p.2))
        else if c = ']' then some ([v], r2)
        else none

/-- Fuel-indexed parse of the field list of a JSON object, after the
opening brace, up to and including the closing brace. -/
def parseFields : Nat → List Char → Option (List (String × JsonValue) × List Char)
  | 0, _ => none
  | fuel + 1, cs =>
    match skipWs cs with
    | [] => none
    | c :: r =>
      if c = '"' then
        match parseStrChars r with
        | none => none
        | some (k, r1) =>
          match skipWs r1 with
          | [] => none
          | c2 :: r2 =>
            if c2 = ':' then
              match parseVal fuel r2 with
              | none => none
              | some (v, r3) =>
                match skipWs r3 with
                | [] => none
                | c3 :: r4 =>
                  if c3 = ',' then
                    (parseFields fuel r4).map
                      (fun p => ((String.mk k, v) :: p.1, p.2))
                  else if c3 = '\x7d' then some ([(String.mk k, v)], r4)
                  else none
            else none
      else none

end

/-- Serialization of a JSON value to text, the model of
`serde_json::to_string`. -/
def serde_to_string (v : JsonValue) : String :=
  String.mk (render v)

/-- Parse of a complete JSON document from text, the model of
`serde_json::from_str` for `Value`: leading and trailing whitespace
allowed, anything else trailing refused. -/
def serde_from_str (s : String) : Option JsonValue :=
  match parseVal (s.data.length + 1) s.data with
  | some (v, rest) => if skipWs rest = [] then some v else none
  | none => none

-- ### Basic facts about the JSON lexical helpers

theorem JsonValue.size_pos : ∀ v : JsonValue, 1 ≤ v.size := by
  intro v
  cases v <;> simp [JsonValue.size]

theorem skipWs_cons {c : Char} (cs : List Char) (h : isWsC c = false) :
    skipWs (c :: cs) = c :: cs := by
  simp [skipWs, h]

theorem stripPre_self : ∀ ps cs : List Char, stripPre ps (ps ++ cs) = some cs := by
  intro ps
  induction ps with
  | nil => intro cs; simp [stripPre]
  | cons p ps ih => intro cs; simp [stripPre, ih]

theorem isDigit_not_ws {c : Char} (h : c.isDigit = true) : isWsC c = false := by
  cases hw : isWsC c
  · rfl
  · exfalso
    simp only [isWsC, Bool.or_eq_true, decide_eq_true_eq] at hw
    rcases hw with ((h2 | h2) | h2) | h2 <;> subst h2 <;> simp at h

theorem isDigit_ne {c d : Char} (h : c.isDigit = true) (h2 : d.isDigit = false) :
    c ≠ d := by
  intro he
  subst he
  rw [h2] at h
  cases h

theorem digitChar_isDigit {d : Nat} (h : d < 10) : (Nat.digitChar d).isDigit = true := by
  interval_cases d <;> decide

theorem digitChar_sub {d : Nat} (h : d < 10) : (Nat.digitChar d).toNat - 48 = d := by
  interval_cases d <;> decide

theorem natChars_ne_nil (n : Nat) : natChars n ≠ [] := by
  rw [natChars_eq]
  split <;> simp

theorem natChars_digits (n : Nat) : ∀ c ∈ natChars n, c.isDigit = true := by
  induction n using Nat.strong_induction_on with
  | _ n ih =>
    rw [natChars_eq]
    split
    · next h =>
      intro c hc
      simp only [List.mem_singleton] at hc
      subst hc
      exact digitChar_isDigit h
    · next h =>
      intro c hc
      rw [List.mem_append] at hc
      rcases hc with hc | hc
      · exact ih (n / 10) (Nat.div_lt_self (by omega) (by omega)) c hc
      · simp only [List.mem_singleton] at hc
        subst hc
        exact digitChar_isDigit (Nat.mod_lt _ (by omega))

/-- Condition on the continuation after a rendered number: the next
character, if any, is not a digit, so the greedy digit run stops exactly
at the number's boundary. -/
def delimOk : List Char → Bool
  | [] => true
  | c :: _ => !c.isDigit

theorem parseNatAcc_delim {rest : List Char} (h : delimOk rest = true) (n : Nat) :
    parseNatAcc n rest = (n, rest) := by
  cases rest with
  | nil => simp [parseNatAcc]
  | cons c cs =>
    simp only [delimOk, Bool.not_eq_eq_eq_not, Bool.not_true] at h
    simp [parseNatAcc, h]

theorem parseNatAcc_natChars (n : Nat) : ∀ acc rest,
    parseNatAcc acc (natChars n ++ rest)
      = parseNatAcc (acc * 10 ^ (natChars n).length + n) rest := by
  induction n using Nat.strong_induction_on with
  | _ n ih =>
    intro acc rest
    conv_lhs => rw [natChars_eq]
    conv_rhs => rw [natChars_eq]
    split
    · next h =>
      simp [parseNatAcc, digitChar_isDigit h, digitChar_sub h]
    · next h =>
      rw [List.append_assoc, ih (n / 10) (Nat.div_lt_self (by omega) (by omega))]
      have h10 : n % 10 < 10 := Nat.mod_lt _ (by omega)
      simp only [List.cons_append, List.nil_append, parseNatAcc,
        digitChar_isDigit h10, if_pos, digitChar_sub h10]
      congr 1
      rw [List.length_append, List.length_singleton, pow_succ]
      have hd : n / 10 * 10 + n % 10 = n := by omega
      ring_nf
      omega

theorem parseNatAcc_render {rest : List Char} (h : delimOk rest = true) (n : Nat) :
    parseNatAcc 0 (natChars n ++ rest) = (n, rest) := by
  rw [parseNatAcc_natChars]
  simp [parseNatAcc_delim h]

theorem hexVal_digitChar {d : Nat} (h : d < 16) : hexVal (Nat.digitChar d) = some d := by
  interval_cases d <;> decide

theorem parseStrChars_escChars : ∀ l rest : List Char,
    parseStrChars (escChars l ++ ('"' :: rest)) = some (l, rest) := by
  intro l
  induction l with
  | nil =>
    intro rest
    rw [escChars, List.nil_append, parseStrChars.eq_def]
    simp
  | cons c cs ih =>
    intro rest
    rw [escChars, List.append_assoc]
    by_cases h1 : c = '"'
    · subst h1
      rw [escapeChar, if_pos rfl, List.cons_append, List.cons_append,
        List.nil_append, parseStrChars.eq_def]
      simp +decide [unescapeChar, ih]
    · by_cases h2 : c = '\\'
      · subst h2
        rw [escapeChar, if_neg (by decide), if_pos rfl, List.cons_append,
          List.cons_append, List.nil_append, parseStrChars.eq_def]
        simp +decide [unescapeChar, ih]
      · by_cases h3 : c.toNat < 32
        · rw [escapeChar, if_neg h1, if_neg h2, if_pos h3]
          have hdiv : c.toNat / 16 < 16 := by omega
          have hmod : c.toNat % 16 < 16 := by omega
          have hz : hexVal '0' = some 0 := by decide
          simp only [List.cons_append, List.nil_append]
          rw [parseStrChars.eq_def]
          simp +decide only [hz, hexVal_digitChar hdiv, hexVal_digitChar hmod,
            reduceIte]
          have hn : ((0 * 16 + 0) * 16 + c.toNat / 16) * 16 + c.toNat % 16
              = c.toNat := by omega
          rw [hn, if_pos (Or.inl (show c.toNat < 55296 by omega)), ih,
            Char.ofNat_toNat]
          rfl
        · rw [escapeChar, if_neg h1, if_neg h2, if_neg h3,
            List.singleton_append, parseStrChars.eq_def]
          simp [h1, h2, h3, ih]

theorem render_head : ∀ v : JsonValue, ∃ c cs, render v = c :: cs ∧
    isWsC c = false ∧ c ≠ ']' ∧ c ≠ '\x7d' := by
  intro v
  cases v with
  | null => exact ⟨'n', _, by rw [render], by decide, by decide, by decide⟩
  | bool b =>
    cases b
    · exact ⟨'f', _, by rw [render], by decide, by decide, by decide⟩
    · exact ⟨'t', _, by rw [render], by decide, by decide, by decide⟩
  | num n =>
    by_cases hn : n < 0
    · exact ⟨'-', _, by rw [render, intChars, if_pos hn], by decide, by decide,
        by decide⟩
    · obtain ⟨d, ds, hnc⟩ : ∃ d ds, natChars n.natAbs = d :: ds := by
        cases h : natChars n.natAbs with
        | nil => exact absurd h (natChars_ne_nil _)
        | cons d ds => exact ⟨d, ds, rfl⟩
      have hd : d.isDigit = true :=
        natChars_digits _ d (by rw [hnc]; exact List.mem_cons_self _ _)
      exact ⟨d, ds, by rw [render, intChars, if_neg hn, hnc],
        isDigit_not_ws hd, isDigit_ne hd (by decide), isDigit_ne hd (by decide)⟩
  | str s => exact ⟨'"', _, by rw [render, renderStr], by decide, by decide,
      by decide⟩
  | arr xs => exact ⟨'[', _, by rw [render], by decide, by decide, by decide⟩
  | obj fs => exact ⟨'\x7b', _, by rw [render], by decide, by decide, by decide⟩

set_option maxHeartbeats 1000000

theorem parse_render_all : ∀ fuel : Nat,
    (∀ (v : JsonValue) (rest : List Char), delimOk rest = true →
      2 * JsonValue.size v ≤ fuel →
      parseVal fuel (render v ++ rest) = some (v, rest)) ∧
    (∀ (x : JsonValue) (xs : List JsonValue) (rest : List Char),
      2 * JsonValue.sizeL (x :: xs) + 1 ≤ fuel →
      parseElems fuel (render x ++ (renderTail xs ++ (']' :: rest)))
        = some (x :: xs, rest)) ∧
    (∀ (k : String) (v : JsonValue) (fs : List (String × JsonValue)) (rest : List Char),
      2 * JsonValue.sizeF ((k, v) :: fs) + 1 ≤ fuel →
      parseFields fuel
          (renderStr k ++ (':' :: (render v ++ (renderFTail fs ++ ('\x7d' :: rest)))))
        = some ((k, v) :: fs, rest)) := by
  intro fuel
  induction fuel with
  | zero =>
    refine ⟨?_, ?_, ?_⟩
    · intro v rest _ hsz
      have := JsonValue.size_pos v
      omega
    · intro x xs rest hsz
      have := JsonValue.size_pos x
      simp only [JsonValue.sizeL] at hsz
      omega
    · intro k v fs rest hsz
      have := JsonValue.size_pos v
      simp only [JsonValue.sizeF] at hsz
      omega
  | succ fuel ih =>
    obtain ⟨ihP, ihQ, ihR⟩ := ih
    have hP : ∀ (v : JsonValue) (rest : List Char), delimOk rest = true →
        2 * JsonValue.size v ≤ fuel + 1 →
        parseVal (fuel + 1) (render v ++ rest) = some (v, rest) := by
      intro v rest hrest hsz
      cases v with
      | null =>
        rw [render, parseVal.eq_def]
        simp +decide [skipWs, isWsC, stripPre]
      | bool b =>
        cases b <;>
          · rw [render, parseVal.eq_def]
            simp +decide [skipWs, isWsC, stripPre]
      | num n =>
        obtain ⟨d, ds, hnc⟩ : ∃ d ds, natChars n.natAbs = d :: ds := by
          cases h : natChars n.natAbs with
          | nil => exact absurd h (natChars_ne_nil _)
          | cons d ds => exact ⟨d, ds, rfl⟩
        have hd : d.isDigit = true :=
          natChars_digits _ d (by rw [hnc]; exact List.mem_cons_self _ _)
        have hpn : parseNatAcc 0 (d :: (ds ++ rest)) = (n.natAbs, rest) := by
          rw [← List.cons_append, ← hnc]
          exact parseNatAcc_render hrest _
        by_cases hn : n < 0
        · have habs : ((n.natAbs : Int)) = -n := by
            rw [← Int.natAbs_neg]
            exact Int.natAbs_of_nonneg (by omega)
          rw [render, intChars, if_pos hn, List.cons_append, parseVal.eq_2]
          rw [hnc, List.cons_append, skipWs_cons _ (by decide)]
          simp +decide [hd, hpn, habs]
        · rw [render, intChars, if_neg hn, hnc, List.cons_append,
            parseVal.eq_2]
          rw [skipWs_cons _ (isDigit_not_ws hd)]
          simp [hd, hpn]
          omega
      | str s =>
        rw [render, renderStr, List.cons_append, List.append_assoc,
          List.singleton_append, parseVal.eq_def]
        simp +decide [skipWs, isWsC, parseStrChars_escChars]
      | arr xs =>
        cases xs with
        | nil =>
          rw [render, renderElems, parseVal.eq_def]
          simp +decide [skipWs, isWsC]
        | cons x xs =>
          have hsplit : render (JsonValue.arr (x :: xs)) ++ rest
              = '[' :: (render x ++ (renderTail xs ++ (']' :: rest))) := by
            rw [render, renderElems]
            simp [List.append_assoc]
          obtain ⟨c0, cs0, hx, hws, hne1, _⟩ := render_head x
          have hszL : 2 * JsonValue.sizeL (x :: xs) + 1 ≤ fuel := by
            simp only [JsonValue.size] at hsz
            omega
          rw [hsplit, parseVal.eq_2]
          rw [show skipWs ('[' :: (render x ++ (renderTail xs ++ (']' :: rest))))
              = '[' :: (render x ++ (renderTail xs ++ (']' :: rest))) from
            skipWs_cons _ (by decide)]
          simp +decide only [reduceIte]
          rw [hx, List.cons_append, skipWs_cons _ hws]
          simp +decide only [reduceIte]
          rw [if_neg hne1, ← List.cons_append, ← hx, ihQ x xs rest hszL]
          rfl
      | obj fs =>
        cases fs with
        | nil =>
          rw [render, renderFields, parseVal.eq_def]
          simp +decide [skipWs, isWsC]
        | cons f fs =>
          obtain ⟨k, v⟩ := f
          have hsplit : render (JsonValue.obj ((k, v) :: fs)) ++ rest
              = '\x7b' :: (renderStr k ++
                  (':' :: (render v ++ (renderFTail fs ++ ('\x7d' :: rest))))) := by
            rw [render, renderFields]
            simp [List.append_assoc]
          have hszF : 2 * JsonValue.sizeF ((k, v) :: fs) + 1 ≤ fuel := by
            simp only [JsonValue.size] at hsz
            omega
          rw [hsplit, parseVal.eq_2]
          rw [show skipWs ('\x7b' :: (renderStr k ++
              (':' :: (render v ++ (renderFTail fs ++ ('\x7d' :: rest))))))
              = '\x7b' :: (renderStr k ++
              (':' :: (render v ++ (renderFTail fs ++ ('\x7d' :: rest))))) from
            skipWs_cons _ (by decide)]
          simp +decide only [reduceIte]
          rw [renderStr, List.cons_append, skipWs_cons _ (by decide)]
          simp +decide only [reduceIte]
          rw [← List.cons_append, ← renderStr, ihR k v fs rest hszF]
          rfl
    refine ⟨hP, ?_, ?_⟩
    · intro x xs rest hsz
      have hdelim : delimOk (renderTail xs ++ (']' :: rest)) = true := by
        cases xs <;> simp +decide [renderTail, delimOk]
      have hszx : 2 * JsonValue.size x ≤ fuel := by
        simp only [JsonValue.sizeL] at hsz
        omega
      rw [parseElems.eq_2, ihP x _ hdelim hszx]
      cases xs with
      | nil => simp +decide [renderTail, skipWs, isWsC]
      | cons y ys =>
        have hszy : 2 * JsonValue.sizeL (y :: ys) + 1 ≤ fuel := by
          have := JsonValue.size_pos x
          simp only [JsonValue.sizeL] at hsz ⊢
          omega
        rw [renderTail]
        simp +decide only [skipWs, isWsC, List.cons_append, List.append_assoc,
          List.append_eq, reduceIte]
        rw [ihQ y ys rest hszy]
        rfl
    · intro k v fs rest hsz
      have hdelim : delimOk (renderFTail fs ++ ('\x7d' :: rest)) = true := by
        cases fs with
        | nil => simp +decide [renderFTail, delimOk]
        | cons f fs => obtain ⟨k2, v2⟩ := f; simp +decide [renderFTail, delimOk]
      have hszv : 2 * JsonValue.size v ≤ fuel := by
        simp only [JsonValue.sizeF] at hsz
        omega
      rw [renderStr, List.cons_append, parseFields.eq_2,
        skipWs_cons _ (by decide)]
      simp +decide only [reduceIte]
      rw [List.append_assoc, List.singleton_append, parseStrChars_escChars]
      simp +decide only [reduceIte]
      rw [skipWs_cons _ (by decide)]
      simp +decide only [reduceIte]
      rw [ihP v _ hdelim hszv]
      cases fs with
      | nil => simp +decide [renderFTail, skipWs, isWsC]
      | cons f fs2 =>
        obtain ⟨k2, v2⟩ := f
        have hszf : 2 * JsonValue.sizeF ((k2, v2) :: fs2) + 1 ≤ fuel := by
          have := JsonValue.size_pos v
          simp only [JsonValue.sizeF] at hsz ⊢
          omega
        rw [renderFTail]
        simp +decide only [skipWs, isWsC, List.cons_append, List.append_assoc,
          List.append_eq, reduceIte]
        rw [ihR k2 v2 fs2 rest hszf]
        rfl

theorem size_le_render_all : ∀ n : Nat,
    (∀ v : JsonValue, JsonValue.size v ≤ n → 2 * JsonValue.size v ≤ (render v).length + 1) ∧
    (∀ xs : List JsonValue, JsonValue.sizeL xs ≤ n →
      2 * JsonValue.sizeL xs ≤ (renderTail xs).length) ∧
    (∀ fs : List (String × JsonValue), JsonValue.sizeF fs ≤ n →
      2 * JsonValue.sizeF fs ≤ (renderFTail fs).length) := by
  intro n
  induction n with
  | zero =>
    refine ⟨?_, ?_, ?_⟩
    · intro v hsz
      have := JsonValue.size_pos v
      omega
    · intro xs hsz
      cases xs with
      | nil => simp [JsonValue.sizeL, renderTail]
      | cons y ys =>
        have := JsonValue.size_pos y
        simp only [JsonValue.sizeL] at hsz
        omega
    · intro fs hsz
      cases fs with
      | nil => simp [JsonValue.sizeF, renderFTail]
      | cons f fs =>
        obtain ⟨k, v⟩ := f
        simp only [JsonValue.sizeF] at hsz
        omega
  | succ n ih =>
    obtain ⟨ihA, ihC, ihD⟩ := ih
    have hA : ∀ v : JsonValue, JsonValue.size v ≤ n + 1 →
        2 * JsonValue.size v ≤ (render v).length + 1 := by
      intro v hsz
      cases v with
      | null => simp [JsonValue.size, render]
      | bool b => cases b <;> simp [JsonValue.size, render]
      | num m =>
        obtain ⟨d, ds, hnc⟩ : ∃ d ds, natChars m.natAbs = d :: ds := by
          cases h : natChars m.natAbs with
          | nil => exact absurd h (natChars_ne_nil _)
          | cons d ds => exact ⟨d, ds, rfl⟩
        rw [render, intChars]
        split <;> simp [JsonValue.size, hnc]
      | str s => simp [JsonValue.size, render, renderStr]
      | arr xs =>
        cases xs with
        | nil => simp [JsonValue.size, JsonValue.sizeL, render, renderElems]
        | cons x xs =>
          simp only [JsonValue.size, JsonValue.sizeL] at hsz
          have h0 := JsonValue.size_pos x
          have h1 : 2 * JsonValue.size x ≤ (render x).length + 1 := ihA x (by omega)
          have h2 : 2 * JsonValue.sizeL xs ≤ (renderTail xs).length := ihC xs (by omega)
          simp only [JsonValue.size, JsonValue.sizeL, render, renderElems,
            List.length_cons, List.length_append, List.length_singleton]
          omega
      | obj fs =>
        cases fs with
        | nil => simp [JsonValue.size, JsonValue.sizeF, render, renderFields]
        | cons f fs =>
          obtain ⟨k, v⟩ := f
          simp only [JsonValue.size, JsonValue.sizeF] at hsz
          have h0 := JsonValue.size_pos v
          have h1 : 2 * JsonValue.size v ≤ (render v).length + 1 := ihA v (by omega)
          have h2 : 2 * JsonValue.sizeF fs ≤ (renderFTail fs).length := ihD fs (by omega)
          simp only [JsonValue.size, JsonValue.sizeF, render, renderFields, renderStr,
            List.length_cons, List.length_append, List.length_singleton]
          omega
    refine ⟨hA, ?_, ?_⟩
    · intro xs hsz
      cases xs with
      | nil => simp [JsonValue.sizeL, renderTail]
      | cons y ys =>
        simp only [JsonValue.sizeL] at hsz
        have h0 := JsonValue.size_pos y
        have h1 : 2 * JsonValue.size y ≤ (render y).length + 1 := hA y (by omega)
        have h2 : 2 * JsonValue.sizeL ys ≤ (renderTail ys).length := ihC ys (by omega)
        simp only [JsonValue.sizeL, renderTail, List.length_cons, List.length_append]
        omega
    · intro fs hsz
      cases fs with
      | nil => simp [JsonValue.sizeF, renderFTail]
      | cons f fs =>
        obtain ⟨k, v⟩ := f
        simp only [JsonValue.sizeF] at hsz
        have h0 := JsonValue.size_pos v
        have h1 : 2 * JsonValue.size v ≤ (render v).length + 1 := hA v (by omega)
        have h2 : 2 * JsonValue.sizeF fs ≤ (renderFTail fs).length := ihD fs (by omega)
        simp only [JsonValue.sizeF, renderFTail, renderStr, List.length_cons,
          List.length_append, List.length_singleton]
        omega

theorem size_le_render (v : JsonValue) : 2 * JsonValue.size v ≤ (render v).length + 1 :=
  (size_le_render_all (JsonValue.size v)).1 v le_rfl

/-- Serialize-then-parse identity for every JSON value: the model of the
conventional `serde_json` round trip. -/
theorem serde_round_trip (v : JsonValue) :
    serde_from_str (serde_to_string v) = some v := by
  have hsz : 2 * JsonValue.size v ≤ (render v).length + 1 := size_le_render v
  have h := (parse_render_all ((render v).length + 1)).1 v [] rfl hsz
  rw [List.append_nil] at h
  rw [serde_to_string, serde_from_str,
    show (String.mk (render v)).data = render v from rfl, h]
  simp [skipWs]

-- ### The service model (`src/main.rs`)

/-- HTTP methods the router can receive.  The router only distinguishes
GET, POST and OPTIONS; the others exercise the catch-all arm. -/
inductive Method where
  | GET
  | POST
  | OPTIONS
  | PUT
  | DELETE
  | HEAD
  | PATCH
deriving DecidableEq

/-- An inbound HTTP request: method, path, the parsed query-string pairs
(the `url::form_urlencoded` view), and the raw body text. -/
structure Request where
  method : Method
  path : String
  query : List (String × String)
  body : String

/-- An HTTP response, reduced to the parts the specification claims speak
about: status code and body text. -/
structure HttpResponse where
  status : Nat
  body : String
deriving DecidableEq

/-- The error taxonomy of the service (`enum AppError`), carrying the
logged detail message of each variant. -/
inductive AppError where
  | DbError (msg : String)
  | JsonError (msg : String)
  | HyperError (msg : String)
  | NotFound
  | Internal (msg : String)
deriving DecidableEq

/-- Serialization of the `ErrorResponse` struct: a JSON object with the
single `error` field. -/
def errorBody (message : String) : String :=
  String.mk (render (JsonValue.obj [("error", JsonValue.str message)]))

/-- The error mapper `AppError::to_response`: status code and generic
client message per failure kind; the carried detail is only logged. -/
def AppError.to_response : AppError → HttpResponse
  | .DbError _ => ⟨500, errorBody ("Database error")⟩
  | .JsonError _ => ⟨400, errorBody ("Invalid JSON format")⟩
  | .HyperError _ => ⟨400, errorBody ("Request body error")⟩
  | .NotFound => ⟨404, errorBody ("Not Found")⟩
  | .Internal _ => ⟨500, errorBody ("Internal server error")⟩

/-- One persisted row of the `events` table: serial id, the three string
columns, and the stored JSON text of the `data` column. -/
structure Row where
  id : Nat
  timestamp : String
  source : String
  event_type : String
  data_str : String
deriving DecidableEq

/-- State of the event store.  Modelled from the spec: the MySQL
collaborator is outside the repository; the table keeps insertion order
and assigns `AUTO_INCREMENT` ids serially starting from 1. -/
structure Db where
  table_exists : Bool
  rows : List Row
  next_id : Nat
deriving DecidableEq

/-- The wire-level event entity (`struct DevelopmentEvent`), with `data`
as a structural JSON value and `id` as the `i32` field. -/
structure DevelopmentEvent where
  id : Int
  timestamp : String
  source : String
  event_type : String
  data : JsonValue

/-- Lookup of a field in a JSON object field list. -/
def lookupField (fields : List (String × JsonValue)) (name : String) : Option JsonValue :=
  (fields.find? (fun f => f.1 = name)).map (fun f => f.2)

/-- Extraction of a string out of a JSON value. -/
def JsonValue.asString : JsonValue → Option String
  | .str s => some s
  | _ => none

/-- Lower bound of the `i32` range. -/
def i32Min : Int := -2147483648

/-- Upper bound of the `i32` range. -/
def i32Max : Int := 2147483647

/-- Modelled from the spec: the derived `serde` deserializer of
`DevelopmentEvent` (the `serde` derive is library code outside the
repository).  The body must be a JSON object; `timestamp`, `source`,
`event_type` are required strings, `data` is required and may be any JSON
value, `id` defaults to 0 when absent and must be an `i32` integer when
present; unknown fields are ignored. -/
def parseEvent (j : JsonValue) : Option DevelopmentEvent :=
  match j with
  | .obj fields =>
    match (lookupField fields ("timestamp")).bind JsonValue.asString,
          (lookupField fields ("source")).bind JsonValue.asString,
          (lookupField fields ("event_type")).bind JsonValue.asString,
          lookupField fields ("data") with
    | some ts, some src, some et, some d =>
      match lookupField fields ("id") with
      | none => some ⟨0, ts, src, et, d⟩
      | some (.num m) =>
        if i32Min ≤ m ∧ m ≤ i32Max then some ⟨m, ts, src, et, d⟩ else none
      | some _ => none
    | _, _, _, _ => none
  | _ => none

/-- The model of `serde_json::from_slice::<DevelopmentEvent>` applied to
the request body text. -/
def parseEventText (body : String) : Option DevelopmentEvent :=
  (serde_from_str body).bind parseEvent

/-- Lookup in the query-parameter map: the `HashMap` collected from the
query-string pairs keeps the last binding of a repeated key. -/
def getParam (q : List (String × String)) (name : String) : Option String :=
  (q.reverse.find? (fun p => p.1 = name)).map (fun p => p.2)

/-- The filter the handler actually applies for one optional query
parameter: the value when present and non-empty, dropped otherwise
(`.get(..).filter(|s| !s.is_empty())`). -/
def activeFilter (q : List (String × String)) (name : String) : Option String :=
  (getParam q name).filter (fun s => !s.isEmpty)

/-- Construction of the select statement and its bound parameters,
mirroring the `GET /events` handler: the SQL text is assembled from fixed
fragments only, filter values go exclusively into the parameter list. -/
def build_query (q : List (String × String)) : String × List (String × String) :=
  let src := activeFilter q ("source")
  let et := activeFilter q ("event_type")
  let where_clauses :=
    (match src with | some _ => ["source = :source"] | none => []) ++
    (match et with | some _ => ["event_type = :event_type"] | none => [])
  let params :=
    (match src with | some s => [("source", s)] | none => []) ++
    (match et with | some t => [("event_type", t)] | none => [])
  let query := "SELECT id, timestamp, source, event_type, data FROM events" ++
    (if where_clauses.isEmpty then "" else
      " WHERE " ++ String.intercalate (" AND ") where_clauses) ++
    " ORDER BY timestamp DESC"
  (query, params)

/-- Lexicographic comparison of character sequences by code point, the
model of the string collation order the database sorts by. -/
def charsLe (x y : List Char) : Bool :=
  match x, y with
  | [], _ => true
  | a :: as, b :: bs =>
    if a.toNat < b.toNat then true
    else if b.toNat < a.toNat then false
    else charsLe as bs
  | _, [] => false

/-- String comparison in the collation order. -/
def strLe (a b : String) : Bool :=
  charsLe a.data b.data

theorem charsLe_nil_left (b : List Char) : charsLe [] b = true := by
  cases b <;> rfl

theorem charsLe_total : ∀ a b : List Char, charsLe a b = true ∨ charsLe b a = true := by
  intro a
  induction a with
  | nil => intro b; left; exact charsLe_nil_left b
  | cons x xs ih =>
    intro b
    cases b with
    | nil => right; exact charsLe_nil_left _
    | cons y ys =>
      rw [charsLe, charsLe]
      by_cases h1 : x.toNat < y.toNat
      · left; rw [if_pos h1]
      · by_cases h2 : y.toNat < x.toNat
        · right; rw [if_pos h2]
        · rw [if_neg h1, if_neg h2, if_neg h2, if_neg h1]
          exact ih ys

theorem charsLe_trans : ∀ a b c : List Char,
    charsLe a b = true → charsLe b c = true → charsLe a c = true := by
  intro a
  induction a with
  | nil => intro b c _ _; exact charsLe_nil_left c
  | cons x xs ih =>
    intro b c hab hbc
    cases b with
    | nil => exact absurd hab (by rw [show charsLe (x :: xs) [] = false from rfl]; simp)
    | cons y ys =>
      cases c with
      | nil => exact absurd hbc (by rw [show charsLe (y :: ys) [] = false from rfl]; simp)
      | cons z zs =>
        rw [charsLe] at hab hbc ⊢
        by_cases h1 : x.toNat < y.toNat
        · by_cases h2 : y.toNat < z.toNat
          · rw [if_pos (by omega)]
          · rw [if_neg h2] at hbc
            by_cases h3 : z.toNat < y.toNat
            · rw [if_pos h3] at hbc; cases hbc
            · rw [if_pos (by omega)]
        · rw [if_neg h1] at hab
          by_cases h2 : y.toNat < x.toNat
          · rw [if_pos h2] at hab; cases hab
          · rw [if_neg h2] at hab
            by_cases h3 : y.toNat < z.toNat
            · rw [if_pos (by omega)]
            · rw [if_neg h3] at hbc
              by_cases h4 : z.toNat < y.toNat
              · rw [if_pos h4] at hbc; cases hbc
              · rw [if_neg h4] at hbc
                rw [if_neg (by omega), if_neg (by omega)]
                exact ih ys zs hab hbc

/-- Satisfaction of one optional equality constraint. -/
def matchesFilter (f : Option String) (value : String) : Bool :=
  match f with
  | none => true
  | some s => value = s

/-- Modelled from the spec: execution of the built select statement by
the MySQL collaborator — the rows satisfying every bound equality
constraint, ordered by the `timestamp` column descending (string order;
ties in unspecified relative order). -/
def run_select (db : Db) (src et : Option String) : List Row :=
  List.insertionSort (fun a b => strLe b.timestamp a.timestamp = true)
    (db.rows.filter
      (fun r => matchesFilter src r.source && matchesFilter et r.event_type))

/-- Reconstitution of a row into a `DevelopmentEvent`: the stored JSON
text is re-parsed, and text that fails to re-parse is normalized to
`null` (`unwrap_or(JsonValue::Null)`). -/
def row_to_event (r : Row) : DevelopmentEvent :=
  ⟨(r.id : Int), r.timestamp, r.source, r.event_type,
    (serde_from_str r.data_str).getD JsonValue.null⟩

/-- The list operation of `GET /events` at the event level. -/
def list_events (db : Db) (src et : Option String) : List DevelopmentEvent :=
  (run_select db src et).map row_to_event

/-- Serialization of an event, fields in declaration order, as the
derived `serde` serializer emits them. -/
def eventJson (e : DevelopmentEvent) : JsonValue :=
  JsonValue.obj [("id", JsonValue.num e.id), ("timestamp", JsonValue.str e.timestamp),
    ("source", JsonValue.str e.source), ("event_type", JsonValue.str e.event_type),
    ("data", e.data)]

/-- Modelled from the spec: the parameterized INSERT executed by the
MySQL collaborator — appends one row carrying the next serial id; fails
as a database error when the table is missing. -/
def db_insert (db : Db) (ts src et data_s : String) :
    Except AppError (Db × Nat) :=
  if db.table_exists then
    Except.ok ({ db with
        rows := db.rows ++ [⟨db.next_id, ts, src, et, data_s⟩],
        next_id := db.next_id + 1 }, db.next_id)
  else Except.error (AppError.DbError ("no such table: events"))

/-- Success payload of the ingest route (`struct IngestResponse`),
serialized in field declaration order. -/
def ingestBody (id : Nat) : String :=
  String.mk (render (JsonValue.obj
    [("status", JsonValue.str ("ingested")), ("id", JsonValue.num (id : Int))]))

/-- The tail of the ingest handler after the INSERT: retrieval of
`last_insert_id()` from the connection, mapping `None` to the
internal-consistency failure. -/
def ingest_finish (last : Option Nat) : Except AppError HttpResponse :=
  match last with
  | none => Except.error (AppError.Internal ("Could not retrieve last insert ID"))
  | some id => Except.ok ⟨200, ingestBody id⟩

/-- The request router (`route_request`), with the store state made
explicit: the handler result or an `AppError`, together with the state
after the request.  A connection is always available (the pool is an
external collaborator supplying ready connections, per the spec scope). -/
def route_request (req : Request) (db : Db) :
    Except AppError HttpResponse × Db :=
  if req.method = Method.OPTIONS ∧ (req.path = "/ingest" ∨ req.path = "/events") then
    (Except.ok ⟨200, "\x7b\"status\":\"ok\"\x7d"⟩, db)
  else if req.method = Method.GET ∧ req.path = "/" then
    (Except.ok ⟨200, "Development Event Tracker API"⟩, db)
  else if req.method = Method.GET ∧ req.path = "/init" then
    (Except.ok ⟨200, "\x7b\"status\":\"initialized\"\x7d"⟩,
      { table_exists := true, rows := [], next_id := 1 })
  else if req.method = Method.POST ∧ req.path = "/ingest" then
    match parseEventText req.body with
    | none => (Except.error (AppError.JsonError ("invalid event body")), db)
    | some event =>
      match db_insert db event.timestamp event.source event.event_type
          (serde_to_string event.data) with
      | Except.error e => (Except.error e, db)
      | Except.ok (db2, id) => (ingest_finish (some id), db2)
  else if req.method = Method.GET ∧ req.path = "/events" then
    if db.table_exists then
      (Except.ok ⟨200, String.mk (render (JsonValue.arr
        ((list_events db (activeFilter req.query ("source"))
            (activeFilter req.query ("event_type"))).map eventJson)))⟩, db)
    else (Except.error (AppError.DbError ("no such table: events")), db)
  else (Except.error AppError.NotFound, db)

/-- The top-level boundary (`handle_request`): every router failure is
converted by the error mapper, nothing escapes. -/
def handle_request (req : Request) (db : Db) : HttpResponse × Db :=
  match route_request req db with
  | (Except.ok r, db2) => (r, db2)
  | (Except.error e, db2) => (e.to_response, db2)

-- ### Helper lemmas about the service model

theorem route_post_ingest (req : Request) (db : Db)
    (hm : req.method = Method.POST) (hp : req.path = ("/ingest")) :
    route_request req db =
      (match parseEventText req.body with
       | none => (Except.error (AppError.JsonError ("invalid event body")), db)
       | some event =>
         match db_insert db event.timestamp event.source event.event_type
             (serde_to_string event.data) with
         | Except.error e => (Except.error e, db)
         | Except.ok (db2, id) => (ingest_finish (some id), db2)) := by
  rw [route_request, if_neg (by rw [hm]; simp), if_neg (by rw [hm]; simp),
    if_neg (by rw [hm]; simp), if_pos ⟨hm, hp⟩]

theorem route_get_events (req : Request) (db : Db)
    (hm : req.method = Method.GET) (hp : req.path = ("/events")) :
    route_request req db =
      (if db.table_exists then
        (Except.ok ⟨200, String.mk (render (JsonValue.arr
          ((list_events db (activeFilter req.query ("source"))
              (activeFilter req.query ("event_type"))).map eventJson)))⟩, db)
      else (Except.error (AppError.DbError ("no such table: events")), db)) := by
  rw [route_request, if_neg (by rw [hm]; simp), if_neg (by rw [hp]; simp),
    if_neg (by rw [hp]; simp), if_neg (by rw [hm]; simp), if_pos ⟨hm, hp⟩]

theorem route_get_init (req : Request) (db : Db)
    (hm : req.method = Method.GET) (hp : req.path = ("/init")) :
    route_request req db = (Except.ok ⟨200, "\x7b\"status\":\"initialized\"\x7d"⟩,
      { table_exists := true, rows := [], next_id := 1 }) := by
  rw [route_request, if_neg (by rw [hm]; simp), if_neg (by rw [hp]; simp),
    if_pos ⟨hm, hp⟩]

/-- Membership in the result of the list operation: exactly the images of
the stored rows passing both active constraints. -/
theorem mem_list_events {db : Db} {src et : Option String}
    {e : DevelopmentEvent} :
    e ∈ list_events db src et ↔
      ∃ r : Row, r ∈ db.rows ∧ matchesFilter src r.source = true ∧
        matchesFilter et r.event_type = true ∧ e = row_to_event r := by
  constructor
  · intro h
    rw [list_events, List.mem_map] at h
    obtain ⟨r, hr, he⟩ := h
    rw [run_select, (List.perm_insertionSort _ _).mem_iff, List.mem_filter,
      Bool.and_eq_true] at hr
    exact ⟨r, hr.1, hr.2.1, hr.2.2, he.symm⟩
  · rintro ⟨r, hr, hf1, hf2, he⟩
    rw [list_events, List.mem_map]
    refine ⟨r, ?_, he.symm⟩
    rw [run_select, (List.perm_insertionSort _ _).mem_iff, List.mem_filter,
      Bool.and_eq_true]
    exact ⟨hr, hf1, hf2⟩

/-- Successful ingest: the appended row and the success response, shared
shape of the `POST /ingest` happy path. -/
theorem ingest_ok (req : Request) (db : Db) (e : DevelopmentEvent)
    (hm : req.method = Method.POST) (hp : req.path = ("/ingest"))
    (hparse : parseEventText req.body = some e)
    (htab : db.table_exists = true) :
    route_request req db = (Except.ok ⟨200, ingestBody db.next_id⟩,
      { table_exists := true,
        rows := db.rows ++ [⟨db.next_id, e.timestamp, e.source, e.event_type,
          serde_to_string e.data⟩],
        next_id := db.next_id + 1 }) := by
  rw [route_post_ingest req db hm hp, hparse]
  simp only [db_insert, if_pos htab, ingest_finish]
  simp [htab]

-- ### The claims

/-- C3: the failure-to-response mapping is total over exactly the five
failure kinds, each mapped to the specified status and message; every
failure body is a JSON object with a single `error` field; and every
request is answered either by the handler result or by the mapped
response of the produced failure — nothing escapes the boundary. -/
theorem claim_C3 :
    ((∀ m, (AppError.DbError m).to_response
        = ⟨500, "\x7b\"error\":\"Database error\"\x7d"⟩) ∧
     (∀ m, (AppError.JsonError m).to_response
        = ⟨400, "\x7b\"error\":\"Invalid JSON format\"\x7d"⟩) ∧
     (∀ m, (AppError.HyperError m).to_response
        = ⟨400, "\x7b\"error\":\"Request body error\"\x7d"⟩) ∧
     (AppError.NotFound.to_response = ⟨404, "\x7b\"error\":\"Not Found\"\x7d"⟩) ∧
     (∀ m, (AppError.Internal m).to_response
        = ⟨500, "\x7b\"error\":\"Internal server error\"\x7d"⟩)) ∧
    (∀ e : AppError, ∃ msg : String,
      e.to_response.body = String.mk (render (JsonValue.obj [("error", JsonValue.str msg)]))) ∧
    (∀ (req : Request) (db : Db), ∃ db2 : Db,
      (∃ r, route_request req db = (Except.ok r, db2) ∧
        handle_request req db = (r, db2)) ∨
      (∃ e : AppError, route_request req db = (Except.error e, db2) ∧
        handle_request req db = (e.to_response, db2))) := by
  refine ⟨⟨fun m => rfl, fun m => rfl, fun m => rfl, rfl, fun m => rfl⟩, ?_, ?_⟩
  · intro e
    cases e <;> exact ⟨_, rfl⟩
  · intro req db
    rcases hr : route_request req db with ⟨res, db2⟩
    cases res with
    | ok r => exact ⟨db2, Or.inl ⟨r, rfl, by rw [handle_request, hr]⟩⟩
    | error e => exact ⟨db2, Or.inr ⟨e, rfl, by rw [handle_request, hr]⟩⟩

/-- C4: a `POST /ingest` whose body fails to deserialize as an event
(malformed JSON, or a required field missing or mistyped) yields status
400 with the JSON-format error body, and the store state is unchanged. -/
theorem claim_C4 (req : Request) (db : Db)
    (hm : req.method = Method.POST) (hp : req.path = ("/ingest"))
    (hbad : parseEventText req.body = none) :
    handle_request req db
      = (⟨400, "\x7b\"error\":\"Invalid JSON format\"\x7d"⟩, db) := by
  rw [handle_request, route_post_ingest req db hm hp, hbad]
  rfl

/-- Witness for C4 at the spec's example body, which misses `source`,
`event_type` and `data`. -/
theorem claim_C4_witness :
    parseEventText ("\x7b\"timestamp\":\"t\"\x7d") = none ∧
    handle_request ⟨Method.POST, "/ingest", [], "\x7b\"timestamp\":\"t\"\x7d"⟩
        ⟨true, [], 1⟩
      = (⟨400, "\x7b\"error\":\"Invalid JSON format\"\x7d"⟩, ⟨true, [], 1⟩) :=
  ⟨rfl, claim_C4 _ _ rfl rfl rfl⟩

/-- C7: every request whose method/path pair is not one of the six
enumerated routes gets status 404 with the `Not Found` error body, and
the store state is unchanged. -/
theorem claim_C7 (req : Request) (db : Db)
    (h : ¬ ((req.method = Method.OPTIONS ∧
              (req.path = ("/ingest") ∨ req.path = ("/events"))) ∨
            (req.method = Method.GET ∧ req.path = ("/")) ∨
            (req.method = Method.GET ∧ req.path = ("/init")) ∨
            (req.method = Method.POST ∧ req.path = ("/ingest")) ∨
            (req.method = Method.GET ∧ req.path = ("/events")))) :
    route_request req db = (Except.error AppError.NotFound, db) ∧
    handle_request req db = (⟨404, "\x7b\"error\":\"Not Found\"\x7d"⟩, db) := by
  have hroute : route_request req db = (Except.error AppError.NotFound, db) := by
    rw [route_request, if_neg (fun hc => h (Or.inl hc)),
      if_neg (fun hc => h (Or.inr (Or.inl hc))),
      if_neg (fun hc => h (Or.inr (Or.inr (Or.inl hc)))),
      if_neg (fun hc => h (Or.inr (Or.inr (Or.inr (Or.inl hc))))),
      if_neg (fun hc => h (Or.inr (Or.inr (Or.inr (Or.inr hc)))))]
  exact ⟨hroute, by rw [handle_request, hroute]; rfl⟩

/-- Witness for C7 at the spec's example, `GET /unknown`. -/
theorem claim_C7_witness :
    handle_request ⟨Method.GET, "/unknown", [], ""⟩ ⟨true, [], 1⟩
      = (⟨404, "\x7b\"error\":\"Not Found\"\x7d"⟩, ⟨true, [], 1⟩) :=
  (claim_C7 ⟨Method.GET, "/unknown", [], ""⟩ ⟨true, [], 1⟩ (by decide)).2

/-- C9: `GET /init` succeeds from every starting state and leaves the
fresh empty table; running it twice gives the same result as running it
once (idempotence), and the run is unconditionally destructive. -/
theorem claim_C9 (req : Request) (db : Db)
    (hm : req.method = Method.GET) (hp : req.path = ("/init")) :
    route_request req db = (Except.ok ⟨200, "\x7b\"status\":\"initialized\"\x7d"⟩,
      { table_exists := true, rows := [], next_id := 1 }) ∧
    (route_request req db).2.table_exists = true ∧
    (route_request req db).2.rows = [] ∧
    route_request req (route_request req db).2 = route_request req db := by
  have h := route_get_init req db hm hp
  refine ⟨h, by rw [h], by rw [h], ?_⟩
  rw [h]
  exact route_get_init req _ hm hp

/-- Witness for C9 from a populated state. -/
theorem claim_C9_witness :
    route_request ⟨Method.GET, "/init", [], ""⟩ ⟨true, [⟨1, "t", "s", "e", "d"⟩], 2⟩
      = (Except.ok ⟨200, "\x7b\"status\":\"initialized\"\x7d"⟩, ⟨true, [], 1⟩) :=
  (claim_C9 ⟨Method.GET, "/init", [], ""⟩ ⟨true, [⟨1, "t", "s", "e", "d"⟩], 2⟩
    rfl rfl).1

/-- C5: a well-formed ingest inserts exactly one row carrying the four
supplied fields (`data` serialized to JSON text) and answers 200 with the
`ingested` status marker plus the store-assigned identifier of that row;
an unavailable identifier after the insert is the internal-consistency
failure, mapped to 500 `Internal server error`. -/
theorem claim_C5 :
    (∀ (req : Request) (db : Db) (e : DevelopmentEvent),
      req.method = Method.POST → req.path = ("/ingest") →
      parseEventText req.body = some e → db.table_exists = true →
      route_request req db = (Except.ok ⟨200, ingestBody db.next_id⟩,
        { table_exists := true,
          rows := db.rows ++ [⟨db.next_id, e.timestamp, e.source, e.event_type,
            serde_to_string e.data⟩],
          next_id := db.next_id + 1 })) ∧
    (∀ id : Nat, ingestBody id = String.mk ((['\x7b', '"', 's', 't', 'a', 't',
      'u', 's', '"', ':', '"', 'i', 'n', 'g', 'e', 's', 't', 'e', 'd', '"',
      ',', '"', 'i', 'd', '"', ':'] ++ natChars id) ++ ['\x7d'])) ∧
    (ingest_finish none
      = Except.error (AppError.Internal ("Could not retrieve last insert ID"))) ∧
    ((AppError.Internal ("Could not retrieve last insert ID")).to_response
      = ⟨500, "\x7b\"error\":\"Internal server error\"\x7d"⟩) := by
  refine ⟨fun req db e hm hp hparse htab => ingest_ok req db e hm hp hparse htab,
    ?_, rfl, rfl⟩
  intro id
  have h1 : intChars ((id : Nat) : Int) = natChars id := by
    rw [intChars, if_neg (by omega)]
    congr 1
  rw [ingestBody]
  congr 1
  simp +decide [render, renderFields, renderFTail, renderStr, escChars,
    escapeChar, h1]

/-- Witness for C5: ingest of a small event into the fresh store. -/
theorem claim_C5_witness :
    parseEventText ("\x7b\"timestamp\":\"t\",\"source\":\"ci\",\"event_type\":\"x\",\"data\":1\x7d")
      = some ⟨0, "t", "ci", "x", JsonValue.num 1⟩ ∧
    route_request
        ⟨Method.POST, "/ingest", [],
          "\x7b\"timestamp\":\"t\",\"source\":\"ci\",\"event_type\":\"x\",\"data\":1\x7d"⟩
        ⟨true, [], 1⟩
      = (Except.ok ⟨200, ingestBody 1⟩, ⟨true, [⟨1, "t", "ci", "x", "1"⟩], 2⟩) :=
  ⟨rfl, claim_C5.1 _ _ ⟨0, "t", "ci", "x", JsonValue.num 1⟩ rfl rfl rfl rfl⟩

/-- C6: every result of the list operation is sorted by `timestamp`
descending in the string collation order, for every state and filter
combination; the spec's concrete ordering example holds. -/
theorem claim_C6 :
    (∀ (db : Db) (src et : Option String),
      List.Pairwise
        (fun a b : DevelopmentEvent => strLe b.timestamp a.timestamp = true)
        (list_events db src et)) ∧
    run_select ⟨true, [⟨1, "2024-01-01", "a", "b", "1"⟩,
        ⟨2, "2024-03-01", "a", "b", "2"⟩, ⟨3, "2024-02-01", "a", "b", "3"⟩], 4⟩
        none none
      = [⟨2, "2024-03-01", "a", "b", "2"⟩, ⟨3, "2024-02-01", "a", "b", "3"⟩,
         ⟨1, "2024-01-01", "a", "b", "1"⟩] := by
  refine ⟨?_, rfl⟩
  intro db src et
  haveI : IsTotal Row (fun a b => strLe b.timestamp a.timestamp = true) :=
    ⟨fun a b => charsLe_total _ _⟩
  haveI : IsTrans Row (fun a b => strLe b.timestamp a.timestamp = true) :=
    ⟨fun a b c h1 h2 => charsLe_trans _ _ _ h2 h1⟩
  have hs : List.Pairwise (fun a b : Row => strLe b.timestamp a.timestamp = true)
      (run_select db src et) := by
    rw [run_select]
    exact List.sorted_insertionSort _ _
  rw [list_events]
  exact List.Pairwise.map _ (fun a b h => h) hs

/-- Fixed SQL text of the select statement as a function of filter
presence alone: the four possible query strings. -/
def query_text (hasSource hasType : Bool) : String :=
  "SELECT id, timestamp, source, event_type, data FROM events" ++
  (match hasSource, hasType with
   | true, true => " WHERE source = :source AND event_type = :event_type"
   | true, false => " WHERE source = :source"
   | false, true => " WHERE event_type = :event_type"
   | false, false => "") ++ " ORDER BY timestamp DESC"

/-- C1: the list operation returns exactly the events passing the
conjunction of the present-and-non-empty filters; an absent or empty
filter imposes no constraint; and the query text is a function of filter
presence alone — the filter values appear only in the bound-parameter
list, never in the SQL text. -/
theorem claim_C1 (db : Db) (q : List (String × String)) :
    (∀ e : DevelopmentEvent,
      e ∈ list_events db (activeFilter q ("source")) (activeFilter q ("event_type")) ↔
      ∃ r : Row, r ∈ db.rows ∧ e = row_to_event r ∧
        matchesFilter (activeFilter q ("source")) r.source = true ∧
        matchesFilter (activeFilter q ("event_type")) r.event_type = true) ∧
    (∀ v : String, matchesFilter none v = true) ∧
    (∀ s v : String, matchesFilter (some s) v = true ↔ v = s) ∧
    (∀ name : String, getParam q name = none ∨ getParam q name = some ("") →
      activeFilter q name = none) ∧
    (∀ name v : String, getParam q name = some v → ¬ v = "" →
      activeFilter q name = some v) ∧
    (build_query q).1 = query_text (activeFilter q ("source")).isSome
      (activeFilter q ("event_type")).isSome ∧
    (build_query q).2 =
      ((activeFilter q ("source")).toList.map (fun s => ("source", s))) ++
      ((activeFilter q ("event_type")).toList.map (fun t => ("event_type", t))) := by
  refine ⟨?_, fun v => rfl, ?_, ?_, ?_, ?_, ?_⟩
  · intro e
    rw [mem_list_events]
    constructor
    · rintro ⟨r, hr, h1, h2, he⟩
      exact ⟨r, hr, he, h1, h2⟩
    · rintro ⟨r, hr, he, h1, h2⟩
      exact ⟨r, hr, h1, h2, he⟩
  · intro s v
    simp [matchesFilter]
  · intro name h
    rcases h with h | h
    · simp [activeFilter, h, Option.filter]
    · simp [activeFilter, h, Option.filter]
      rfl
  · intro name v h hv
    have hne : v.isEmpty = false := by
      cases he : v.isEmpty
      · rfl
      · exact absurd ((String.isEmpty_iff v).mp he) hv
    simp [activeFilter, h, Option.filter, hne]
  · rcases hs : activeFilter q ("source") with _ | s <;>
      rcases ht : activeFilter q ("event_type") with _ | t <;>
      simp only [build_query, hs, ht] <;> rfl
  · rcases hs : activeFilter q ("source") with _ | s <;>
      rcases ht : activeFilter q ("event_type") with _ | t <;>
      simp only [build_query, hs, ht] <;> rfl

/-- Witness for C1: an active filter keeps its value, with the example
query string of the spec. -/
theorem claim_C1_witness :
    getParam [("source", "ci")] ("source") = some ("ci") ∧
    ¬ ("ci" : String) = "" ∧
    activeFilter [("source", "ci")] ("source") = some ("ci") :=
  ⟨rfl, by decide,
    (claim_C1 ⟨true, [], 1⟩ [("source", "ci")]).2.2.2.2.1 ("source") ("ci")
      rfl (by decide)⟩

/-- C8: the list operation never fails on stored rows; a row whose stored
JSON text does not re-parse is returned with `data` normalized to `null`,
a row whose text re-parses is returned with the parsed structure, and any
row passing the filters appears in the result regardless. -/
theorem claim_C8 :
    (∀ (req : Request) (db : Db), req.method = Method.GET →
      req.path = ("/events") → db.table_exists = true →
      ∃ resp : HttpResponse, route_request req db = (Except.ok resp, db) ∧
        resp.status = 200) ∧
    (∀ r : Row, serde_from_str r.data_str = none →
      (row_to_event r).data = JsonValue.null) ∧
    (∀ (r : Row) (v : JsonValue), serde_from_str r.data_str = some v →
      (row_to_event r).data = v) ∧
    (∀ (db : Db) (src et : Option String) (r : Row), r ∈ db.rows →
      matchesFilter src r.source = true → matchesFilter et r.event_type = true →
      row_to_event r ∈ list_events db src et) := by
  refine ⟨?_, ?_, ?_, ?_⟩
  · intro req db hm hp htab
    refine ⟨⟨200, String.mk (render (JsonValue.arr
      ((list_events db (activeFilter req.query ("source"))
          (activeFilter req.query ("event_type"))).map eventJson)))⟩, ?_, rfl⟩
    rw [route_get_events req db hm hp, if_pos htab]
  · intro r h
    simp [row_to_event, h]
  · intro r v h
    simp [row_to_event, h]
  · intro db src et r hr h1 h2
    exact mem_list_events.mpr ⟨r, hr, h1, h2, rfl⟩

/-- Witness for C8: an unparsable stored text is normalized to null. -/
theorem claim_C8_witness :
    serde_from_str ("x") = none ∧
    (row_to_event ⟨1, "t", "s", "e", "x"⟩).data = JsonValue.null :=
  ⟨rfl, claim_C8.2.1 ⟨1, "t", "s", "e", "x"⟩ rfl⟩

/-- C2: serializing `data` at insert time and re-parsing the stored text
at read time is the identity on the structural value, and concretely:
after a successful ingest, the unfiltered list contains the ingested
event with `data` deep-equal to the supplied value. -/
theorem claim_C2 :
    (∀ v : JsonValue, serde_from_str (serde_to_string v) = some v) ∧
    (∀ (req : Request) (db : Db) (e : DevelopmentEvent),
      req.method = Method.POST → req.path = ("/ingest") →
      parseEventText req.body = some e → db.table_exists = true →
      ∃ db2 : Db,
        route_request req db = (Except.ok ⟨200, ingestBody db.next_id⟩, db2) ∧
        ∃ ev, ev ∈ list_events db2 none none ∧
          ev.timestamp = e.timestamp ∧ ev.source = e.source ∧
          ev.event_type = e.event_type ∧ ev.data = e.data ∧
          ev.id = (db.next_id : Int)) := by
  refine ⟨serde_round_trip, ?_⟩
  intro req db e hm hp hparse htab
  refine ⟨_, ingest_ok req db e hm hp hparse htab, ?_⟩
  refine ⟨row_to_event ⟨db.next_id, e.timestamp, e.source, e.event_type,
    serde_to_string e.data⟩, ?_, rfl, rfl, rfl, ?_, rfl⟩
  · exact mem_list_events.mpr ⟨_,
      List.mem_append_right _ (List.mem_singleton.mpr rfl), rfl, rfl, rfl⟩
  · show (serde_from_str (serde_to_string e.data)).getD JsonValue.null = e.data
    rw [serde_round_trip]
    rfl

/-- Witness for C2 at the spec's example payload. -/
theorem claim_C2_witness :
    parseEventText
        ("\x7b\"timestamp\":\"t\",\"source\":\"ci\",\"event_type\":\"x\",\"data\":\x7b\"a\":1,\"b\":[true,null]\x7d\x7d")
      = some ⟨0, "t", "ci", "x", JsonValue.obj [("a", JsonValue.num 1),
          ("b", JsonValue.arr [JsonValue.bool true, JsonValue.null])]⟩ ∧
    ∃ db2 : Db,
      route_request
          ⟨Method.POST, "/ingest", [],
            "\x7b\"timestamp\":\"t\",\"source\":\"ci\",\"event_type\":\"x\",\"data\":\x7b\"a\":1,\"b\":[true,null]\x7d\x7d"⟩
          ⟨true, [], 1⟩
        = (Except.ok ⟨200, ingestBody 1⟩, db2) ∧
      ∃ ev, ev ∈ list_events db2 none none ∧
        ev.timestamp = "t" ∧ ev.source = "ci" ∧ ev.event_type = "x" ∧
        ev.data = JsonValue.obj [("a", JsonValue.num 1),
          ("b", JsonValue.arr [JsonValue.bool true, JsonValue.null])] ∧
        ev.id = (1 : Int) :=
  ⟨rfl, claim_C2.2 _ _ ⟨0, "t", "ci", "x", JsonValue.obj [("a", JsonValue.num 1),
    ("b", JsonValue.arr [JsonValue.bool true, JsonValue.null])]⟩ rfl rfl rfl rfl⟩

theorem lookupField_append_of_ne (fields : List (String × JsonValue)) (j : JsonValue)
    (name : String) (hn : ¬ name = "id") :
    lookupField (fields ++ [("id", j)]) name = lookupField fields name := by
  rw [lookupField, lookupField, List.find?_append]
  cases hf : List.find? (fun f => f.1 = name) fields with
  | some f => simp [Option.or]
  | none =>
    simp only [Option.or]
    rw [List.find?]
    simp [show ¬ (("id" : String) = name) from fun h => hn h.symm]

theorem lookupField_append_id (fields : List (String × JsonValue)) (j : JsonValue)
    (h : lookupField fields ("id") = none) :
    lookupField (fields ++ [("id", j)]) ("id") = some j := by
  rw [lookupField] at h ⊢
  rw [List.find?_append]
  have hf : List.find? (fun f => f.1 = ("id")) fields = none := by
    cases hf : List.find? (fun f => f.1 = ("id")) fields with
    | none => rfl
    | some f => rw [hf] at h; cases h
  rw [hf]
  simp [Option.or, List.find?]

/-- C10: the event identifier is server-assigned and ignored on input —
the route result depends only on the four content fields of the parsed
event, never on its `id`; a body accepted without an `id` field is
accepted with one appended and parses to the same content; two sequential
ingests receive distinct increasing identifiers; and every listed event
carries the identifier of its row. -/
theorem claim_C10 :
    (∀ (db : Db) (req1 req2 : Request) (e1 e2 : DevelopmentEvent),
      req1.method = Method.POST → req1.path = ("/ingest") →
      req2.method = Method.POST → req2.path = ("/ingest") →
      parseEventText req1.body = some e1 → parseEventText req2.body = some e2 →
      e1.timestamp = e2.timestamp → e1.source = e2.source →
      e1.event_type = e2.event_type → e1.data = e2.data →
      route_request req1 db = route_request req2 db) ∧
    (∀ (fields : List (String × JsonValue)) (m : Int) (e : DevelopmentEvent),
      lookupField fields ("id") = none → i32Min ≤ m → m ≤ i32Max →
      parseEvent (JsonValue.obj fields) = some e →
      parseEvent (JsonValue.obj (fields ++ [("id", JsonValue.num m)]))
        = some ⟨m, e.timestamp, e.source, e.event_type, e.data⟩) ∧
    (∀ (db : Db) (req1 req2 : Request) (e1 e2 : DevelopmentEvent),
      db.table_exists = true →
      req1.method = Method.POST → req1.path = ("/ingest") →
      req2.method = Method.POST → req2.path = ("/ingest") →
      parseEventText req1.body = some e1 → parseEventText req2.body = some e2 →
      ∃ db1 db2 : Db,
        route_request req1 db = (Except.ok ⟨200, ingestBody db.next_id⟩, db1) ∧
        route_request req2 db1
          = (Except.ok ⟨200, ingestBody (db.next_id + 1)⟩, db2) ∧
        db.next_id < db.next_id + 1) ∧
    (∀ (db : Db) (src et : Option String) (ev : DevelopmentEvent),
      ev ∈ list_events db src et →
      ∃ r : Row, r ∈ db.rows ∧ ev = row_to_event r ∧ ev.id = (r.id : Int)) := by
  refine ⟨?_, ?_, ?_, ?_⟩
  · intro db req1 req2 e1 e2 hm1 hp1 hm2 hp2 hparse1 hparse2 ht hs he hd
    rw [route_post_ingest req1 db hm1 hp1, route_post_ingest req2 db hm2 hp2,
      hparse1, hparse2]
    simp only [ht, hs, he, hd]
  · intro fields m e hid h1 h2 hp
    rw [parseEvent] at hp ⊢
    rw [lookupField_append_of_ne _ _ _ (by decide),
      lookupField_append_of_ne _ _ _ (by decide),
      lookupField_append_of_ne _ _ _ (by decide),
      lookupField_append_of_ne _ _ _ (by decide),
      lookupField_append_id _ _ hid]
    cases hts : (lookupField fields ("timestamp")).bind JsonValue.asString with
    | none => rw [hts] at hp; simp at hp
    | some ts =>
      cases hsrc : (lookupField fields ("source")).bind JsonValue.asString with
      | none => rw [hts, hsrc] at hp; simp at hp
      | some src =>
        cases het : (lookupField fields ("event_type")).bind JsonValue.asString with
        | none => rw [hts, hsrc, het] at hp; simp at hp
        | some et =>
          cases hdat : lookupField fields ("data") with
          | none => rw [hts, hsrc, het, hdat] at hp; simp at hp
          | some d =>
            rw [hts, hsrc, het, hdat, hid] at hp
            simp only [Option.some.injEq] at hp
            subst hp
            simp [h1, h2]
  · intro db req1 req2 e1 e2 htab hm1 hp1 hm2 hp2 hparse1 hparse2
    have h1 := ingest_ok req1 db e1 hm1 hp1 hparse1 htab
    have h2 := ingest_ok req2
      ({ table_exists := true,
         rows := db.rows ++ [⟨db.next_id, e1.timestamp, e1.source,
           e1.event_type, serde_to_string e1.data⟩],
         next_id := db.next_id + 1 }) e2 hm2 hp2 hparse2 rfl
    exact ⟨_, _, h1, h2, by omega⟩
  · intro db src et ev hev
    obtain ⟨r, hr, _, _, he⟩ := mem_list_events.mp hev
    exact ⟨r, hr, he, by rw [he]; rfl⟩

/-- Witness for C10: two bodies identical except for a client-supplied
`id` field produce identical route results. -/
theorem claim_C10_witness :
    parseEventText
        ("\x7b\"timestamp\":\"t\",\"source\":\"s\",\"event_type\":\"e\",\"data\":null\x7d")
      = some ⟨0, "t", "s", "e", JsonValue.null⟩ ∧
    parseEventText
        ("\x7b\"timestamp\":\"t\",\"source\":\"s\",\"event_type\":\"e\",\"data\":null,\"id\":99\x7d")
      = some ⟨99, "t", "s", "e", JsonValue.null⟩ ∧
    route_request
        ⟨Method.POST, "/ingest", [],
          "\x7b\"timestamp\":\"t\",\"source\":\"s\",\"event_type\":\"e\",\"data\":null\x7d"⟩
        ⟨true, [], 1⟩
      = route_request
        ⟨Method.POST, "/ingest", [],
          "\x7b\"timestamp\":\"t\",\"source\":\"s\",\"event_type\":\"e\",\"data\":null,\"id\":99\x7d"⟩
        ⟨true, [], 1⟩ :=
  ⟨rfl, rfl,
    claim_C10.1 ⟨true, [], 1⟩ _ _ ⟨0, "t", "s", "e", JsonValue.null⟩
      ⟨99, "t", "s", "e", JsonValue.null⟩ rfl rfl rfl rfl rfl rfl rfl rfl rfl rfl⟩
